import Mathlib

/-!
Verification development for `fw_tabulate_scans.py` (PennBBL/flywheel-tableau-metadata).

The script walks a Flywheel project hierarchy (subjects, sessions,
acquisitions, files), extracts per-file metadata for nifti files into a
dict keyed by file id, and exports the dict as a flat csv table.  The
definitions below are a shallow embedding of that script: Python dicts
become association lists over `String` keys, Python datetimes become an
explicit record with an optional UTC offset, the try/except metadata
fallback chains become `Option`-valued lookups, and the Flywheel client
becomes a record of read-only query functions.
-/

namespace FwTabulate

/-- A calendar date (the `datetime.date` part of a Python datetime). -/
structure Date where
  year : Int
  month : Int
  day : Int
  deriving DecidableEq, Repr

/-- A time of day at second granularity (the result of `time.fromisoformat`). -/
structure TimeOfDay where
  hour : Nat
  minute : Nat
  second : Nat
  deriving DecidableEq, Repr

/-- A Python `datetime.datetime` at second granularity.  `tz` is the UTC
offset in minutes when the value is timezone-aware, `none` when naive
(`tzinfo=None`). -/
structure DateTime where
  date : Date
  hour : Nat
  minute : Nat
  second : Nat
  tz : Option Int
  deriving DecidableEq, Repr

/-- Days since 1970-01-01 of a civil date (proleptic Gregorian), the
standard days-from-civil computation used to compare datetimes as
instants. -/
def daysFromCivil (y m d : Int) : Int :=
  let y2 : Int := if m ≤ 2 then y - 1 else y
  let era : Int := (if 0 ≤ y2 then y2 else y2 - 399) / 400
  let yoe : Int := y2 - era * 400
  let mp : Int := if 2 < m then m - 3 else m + 9
  let doy : Int := (153 * mp + 2) / 5 + d - 1
  let doe : Int := yoe * 365 + yoe / 4 - yoe / 100 + doy
  era * 146097 + doe - 719468

/-- The instant a `DateTime` denotes, in seconds since the epoch.  A naive
value is read at offset 0; Python aware-datetime comparison (`>=` on two
aware datetimes) is comparison of these instants. -/
def instant (dt : DateTime) : Int :=
  daysFromCivil dt.date.year dt.date.month dt.date.day * 86400
    + (dt.hour : Int) * 3600 + (dt.minute : Int) * 60 + (dt.second : Int)
    - (dt.tz.getD 0) * 60

/-- `dt.replace(tzinfo=None)`: drop the timezone, keep the civil fields. -/
def stripTz (dt : DateTime) : DateTime :=
  { dt with tz := none }

/-- `datetime(d.year, d.month, d.day, tzinfo=pytz.UTC)`: midnight UTC on
date `d`, the timezone-aware lower bound used by the incremental path. -/
def dateBoundary (d : Date) : DateTime :=
  { date := d, hour := 0, minute := 0, second := 0, tz := some 0 }

/-- A value stored in a file's open-ended `info` metadata mapping. -/
inductive MetaValue where
  | str (s : String)
  | num (n : Int)
  deriving DecidableEq, Repr

/-- A timestamp resolved by `get_file_data`: either a raw metadata value
returned as-is (`AcquisitionDateTime` or `AcquisitionDate`), or the
`datetime.combine` of the parent acquisition's date with a parsed
`AcquisitionTime` time of day. -/
inductive TsValue where
  | raw (v : MetaValue)
  | combined (d : Date) (t : TimeOfDay)
  deriving DecidableEq, Repr

/-- A Flywheel file: type tag, name, creation timestamp, remote id, and
the `info` metadata mapping. -/
structure FwFile where
  id : String
  name : String
  type : String
  created : DateTime
  info : List (String × MetaValue)
  deriving DecidableEq, Repr

/-- A Flywheel acquisition: label, its own timestamp (possibly absent),
and contained files. -/
structure Acquisition where
  label : String
  timestamp : Option DateTime
  files : List FwFile
  deriving DecidableEq, Repr

/-- A Flywheel session: label and contained acquisitions. -/
structure Session where
  label : String
  acquisitions : List Acquisition
  deriving DecidableEq, Repr

/-- A Flywheel subject: label and contained sessions. -/
structure Subject where
  label : String
  sessions : List Session
  deriving DecidableEq, Repr

/-- A Flywheel project: label and contained subjects. -/
structure Project where
  label : String
  subjects : List Subject
  deriving DecidableEq, Repr

/-- `ses.reload()`: re-read the session from the server.  Against an
unchanged remote state this returns the same data. -/
def Session.reload (s : Session) : Session := s

/-- `acq.reload()`: re-read the acquisition from the server.  Against an
unchanged remote state this returns the same data. -/
def Acquisition.reload (a : Acquisition) : Acquisition := a

/-- The subject context attached to a structured-query result
(`res.subject`). -/
structure SubjectRef where
  code : String
  deriving DecidableEq, Repr

/-- The session context attached to a structured-query result
(`res.session`). -/
structure SessionRef where
  label : String
  deriving DecidableEq, Repr

/-- The acquisition reference attached to a structured-query result
(`res.acquisition`). -/
structure AcquisitionRef where
  id : String
  deriving DecidableEq, Repr

/-- One acquisition-granularity result of `fw.search`. -/
structure SearchResult where
  subject : SubjectRef
  session : SessionRef
  acquisition : AcquisitionRef
  deriving DecidableEq, Repr

/-- The Flywheel client: the remote read-only state reachable through it.
`projects` backs `fw.projects.find_first`, `acqStore` backs
`fw.get_acquisition`, and `searchIndex` backs the server-side structured
query (keyed by project label and minimum date). -/
structure Client where
  projects : List Project
  acqStore : String → Acquisition
  searchIndex : String → Date → List SearchResult

/-- `fw.get_acquisition(acqid)`. -/
def Client.get_acquisition (fw : Client) (acqid : String) : Acquisition :=
  fw.acqStore acqid

/-- `fw.search(structured_query, return_type=acquisition)` for the query
built from a project label and a minimum creation date. -/
def Client.search (fw : Client) (projectLabel : String) (minDate : Date) :
    List SearchResult :=
  fw.searchIndex projectLabel minDate

/-- The error taxonomy of the script's three guarded failure modes. -/
inductive FwError where
  | authenticationError (msg : String)
  | notFoundError (msg : String)
  | noResultsError (msg : String)
  deriving DecidableEq, Repr

/-- `fw.projects.find_first('label="..."')`: the first project whose label
matches, if any. -/
def find_first (projects : List Project) (projectLabel : String) : Option Project :=
  projects.find? (fun p => p.label == projectLabel)

/-- Embeds `get_project` (src/fw_tabulate_scans.py lines 19-30).  A failed
client construction (absent or rejected credentials) is modelled as the
`none` client; the two asserts become the two error cases. -/
def get_project (clientOpt : Option Client) (projectLabel : String) :
    Except FwError Project :=
  match clientOpt with
  | none => .error (.authenticationError "Your Flywheel CLI credentials are not set!")
  | some fw =>
    match find_first fw.projects projectLabel with
    | none => .error (.notFoundError ("Project " ++ projectLabel ++ " not found!"))
    | some project => .ok project

/-- Dict lookup `info[key]` on the metadata mapping: the first binding of
the key, if any (Python dict keys are unique, so first = only). -/
def lookupInfo (info : List (String × MetaValue)) (key : String) : Option MetaValue :=
  (info.find? (fun kv => kv.1 == key)).map (fun kv => kv.2)

/-- One decimal digit of an `AcquisitionTime` string. -/
def charDigit (c : Char) : Option Nat :=
  if '0' ≤ c ∧ c ≤ '9' then some (c.toNat - Char.toNat '0') else none

/-- A two-digit field of an `AcquisitionTime` string. -/
def parseField : List Char → Option Nat
  | [c1, c2] => do
    let d1 ← charDigit c1
    let d2 ← charDigit c2
    pure (10 * d1 + d2)
  | _ => none

/-- Split a character list on the colon separator. -/
def splitCols : List Char → List (List Char)
  | [] => [[]]
  | c :: rest =>
    let r := splitCols rest
    if c = ':' then [] :: r
    else
      match r with
      | [] => [[c]]
      | g :: gs => (c :: g) :: gs

/-- Embeds `time.fromisoformat` on the formats the script can meet:
two-digit fields `HH`, `HH:MM` or `HH:MM:SS`, each in range; anything
else raises, which the caller's bare `except` turns into a fallthrough,
so it is `none` here. -/
def timeFromIso (s : String) : Option TimeOfDay :=
  match (splitCols s.toList).map parseField with
  | [some h] => if h < 24 then some ⟨h, 0, 0⟩ else none
  | [some h, some m] => if h < 24 ∧ m < 60 then some ⟨h, m, 0⟩ else none
  | [some h, some m, some sec] =>
      if h < 24 ∧ m < 60 ∧ sec < 60 then some ⟨h, m, sec⟩ else none
  | _ => none

/-- The `datetime.combine(acq.timestamp.date(), time.fromisoformat(f.info['AcquisitionTime']))`
attempt of `get_file_data`, wrapped in its bare `except`: `none` when the
acquisition has no timestamp (`AttributeError`), the key is missing
(`KeyError`), the value is not a string (`TypeError`), or it does not
parse (`ValueError`). -/
def combineAcqTime (f : FwFile) (acq : Acquisition) : Option TsValue :=
  match acq.timestamp with
  | none => none
  | some acqTs =>
    match lookupInfo f.info "AcquisitionTime" with
    | some (MetaValue.str s) =>
      match timeFromIso s with
      | some t => some (TsValue.combined acqTs.date t)
      | none => none
    | _ => none

/-- The `SeriesNumber` attempt of `get_file_data`: the metadata value, or
`none` (the script's `np.NaN`) when absent. -/
def seriesNumOf (f : FwFile) : Option MetaValue :=
  lookupInfo f.info "SeriesNumber"

/-- The timestamp fallback chain of `get_file_data`
(src/fw_tabulate_scans.py lines 46-57): `AcquisitionDateTime` as-is, else
acquisition date combined with `AcquisitionTime`, else `AcquisitionDate`
as-is, else `none` (the script's `pd.NaT`). -/
def timestampOf (f : FwFile) (acq : Acquisition) : Option TsValue :=
  match lookupInfo f.info "AcquisitionDateTime" with
  | some v => some (TsValue.raw v)
  | none =>
    match combineAcqTime f acq with
    | some ts => some ts
    | none =>
      match lookupInfo f.info "AcquisitionDate" with
      | some v => some (TsValue.raw v)
      | none => none

/-- Embeds `get_file_data` (src/fw_tabulate_scans.py lines 33-59):
returns `(fileId, seriesNum, timestamp)`. -/
def get_file_data (f : FwFile) (acq : Acquisition) :
    String × Option MetaValue × Option TsValue :=
  (f.id, seriesNumOf f, timestampOf f acq)

/-- One cell of a stored record row: a label or filename string, a raw
metadata value, a resolved timestamp, a datetime, or null (`NaN`/`NaT`). -/
inductive Cell where
  | str (s : String)
  | meta (v : MetaValue)
  | ts (v : TsValue)
  | dt (d : DateTime)
  | null
  deriving DecidableEq, Repr

/-- The seriesNum cell: the metadata value, or null for `np.NaN`. -/
def metaCell : Option MetaValue → Cell
  | some v => Cell.meta v
  | none => Cell.null

/-- The timestamp cell: the resolved timestamp, or null for `pd.NaT`. -/
def tsCell : Option TsValue → Cell
  | some v => Cell.ts v
  | none => Cell.null

/-- The 7-element record value stored under a file id:
`[subId, sesId, acqLabel, fileName, seriesNum, timestamp, created]`
(src/fw_tabulate_scans.py lines 103 and 158). -/
def mkRecord (subId sesId acqLabel fileName : String)
    (seriesNum : Option MetaValue) (timestamp : Option TsValue)
    (created : DateTime) : List Cell :=
  [Cell.str subId, Cell.str sesId, Cell.str acqLabel, Cell.str fileName,
   metaCell seriesNum, tsCell timestamp, Cell.dt created]

/-- The in-memory result table: the script's `info` dict, keyed by file id. -/
abbrev Table := List (String × List Cell)

/-- Python dict assignment `d[k] = v`: replace the binding in place when
the key is present, append otherwise. -/
def dictInsert {α : Type} : List (String × α) → String → α → List (String × α)
  | [], k, v => [(k, v)]
  | kv :: rest, k, v =>
    if kv.1 = k then (k, v) :: rest else kv :: dictInsert rest k v

/-- Python dict read `d[k]`: the unique binding of `k`, if any. -/
def lookup {α : Type} : List (String × α) → String → Option α
  | [], _ => none
  | kv :: rest, k => if kv.1 = k then some kv.2 else lookup rest k

/-- Fold a list of key-value pairs into a dict by repeated assignment. -/
def dictInsertList {α : Type} (t : List (String × α)) (l : List (String × α)) :
    List (String × α) :=
  l.foldl (fun acc kv => dictInsert acc kv.1 kv.2) t

/-- The per-file body of the full-traversal loop
(src/fw_tabulate_scans.py lines 96-103): on a nifti file, assign the
record built from `get_file_data` and the stripped creation timestamp
under the file id; otherwise leave the dict unchanged. -/
def processFile (subLabel sesLabel : String) (acq : Acquisition)
    (info : Table) (f : FwFile) : Table :=
  if f.type == "nifti" then
    dictInsert info (get_file_data f acq).1
      (mkRecord subLabel sesLabel acq.label f.name
        (get_file_data f acq).2.1 (get_file_data f acq).2.2
        (stripTz f.created))
  else info

/-- The per-acquisition loop of the full traversal (lines 92-103): reload
the acquisition, then fold its files. -/
def processAcquisition (subLabel sesLabel : String) (info : Table)
    (acq : Acquisition) : Table :=
  acq.reload.files.foldl (processFile subLabel sesLabel acq.reload) info

/-- The per-session loop of the full traversal (lines 88-103): reload the
session, then fold its acquisitions. -/
def processSession (subLabel : String) (info : Table) (ses : Session) : Table :=
  ses.reload.acquisitions.foldl (processAcquisition subLabel ses.reload.label) info

/-- The per-subject loop of the full traversal (lines 77-103).  The inner
progress-bar bookkeeping (`count`, `pbar`) never touches `info` and is
not part of the data flow. -/
def processSubject (info : Table) (sub : Subject) : Table :=
  sub.sessions.foldl (processSession sub.label) info

/-- Embeds `get_all_metadata_for` (src/fw_tabulate_scans.py lines 62-109):
the nested subject, session, acquisition, file traversal accumulating the
`info` dict from empty. -/
def get_all_metadata_for (project : Project) : Table :=
  project.subjects.foldl processSubject []

/-- The per-file filter of the incremental path (line 152):
`f.type == 'nifti' and f.created >= datetime(date.year, date.month, date.day, tzinfo=pytz.UTC)`,
the creation comparison taken between timezone-aware instants. -/
def recentFileQualifies (minDate : Date) (f : FwFile) : Bool :=
  f.type == "nifti" && decide (instant (dateBoundary minDate) ≤ instant f.created)

/-- The per-file body of the incremental loop (lines 151-158): subject
code and session label come from the search result, the acquisition label
from the fetched acquisition. -/
def processRecentFile (subid sesid : String) (acq : Acquisition) (minDate : Date)
    (info : Table) (f : FwFile) : Table :=
  if recentFileQualifies minDate f then
    dictInsert info (get_file_data f acq).1
      (mkRecord subid sesid acq.label f.name
        (get_file_data f acq).2.1 (get_file_data f acq).2.2
        (stripTz f.created))
  else info

/-- The per-result loop of the incremental path (lines 139-158): fetch the
acquisition by id and fold its files.  Line 148 calls `acq.reload()` and
discards the returned copy, so the fetched object itself is iterated. -/
def processResult (fw : Client) (minDate : Date) (info : Table)
    (res : SearchResult) : Table :=
  (fw.get_acquisition res.acquisition.id).files.foldl
    (processRecentFile res.subject.code res.session.label
      (fw.get_acquisition res.acquisition.id) minDate) info

/-- Embeds `get_recent_metadata_for` (src/fw_tabulate_scans.py lines
112-161): run the structured query, fail with `NoResultsError` on an
empty result list (the assert on line 133), otherwise fold the results
into the `info` dict from empty. -/
def get_recent_metadata_for (fw : Client) (project : Project) (minDate : Date) :
    Except FwError Table :=
  let results := fw.search project.label minDate
  if results.isEmpty then
    .error (.noResultsError
      ("No nifti files created on or after the given date were found in "
        ++ project.label ++ "! Exiting."))
  else
    .ok (results.foldl (processResult fw minDate) [])

/-- The fixed column names assigned to the exported dataframe
(src/fw_tabulate_scans.py line 211). -/
def headerColumns : List String :=
  ["FlywheelFileId", "SubjectId", "SessionId", "AcqLabel", "Filename",
   "SeriesNumber", "Timestamp", "Created"]

/-- Embeds the export conversion (lines 210-211):
`pd.DataFrame.from_dict(info, orient='index').reset_index()` turns each
dict entry into one row whose first column is the key. -/
def toCsvRows (info : Table) : List (List Cell) :=
  info.map (fun kr => Cell.str kr.1 :: kr.2)

/-! ### Traversal-order pair lists

Each extractor is re-expressed below as `dictInsertList []` of a flat
list of `(fileId, record)` pairs in visit order; the lemmas in the next
section prove the folds equal to these lists. -/

/-- The nifti files of one acquisition, in file order. -/
def acqNiftiFiles (acq : Acquisition) : List FwFile :=
  acq.reload.files.filter (fun f => f.type == "nifti")

/-- All nifti files reachable under a project, in traversal order. -/
def projectNiftiFiles (p : Project) : List FwFile :=
  p.subjects.flatMap (fun sub =>
    sub.sessions.flatMap (fun ses =>
      ses.reload.acquisitions.flatMap acqNiftiFiles))

/-- The `(fileId, record)` pairs one acquisition contributes to the full
traversal, in visit order. -/
def acqNiftiPairs (subLabel sesLabel : String) (acq : Acquisition) : Table :=
  acqNiftiFiles acq |>.map (fun f =>
    ((get_file_data f acq.reload).1,
      mkRecord subLabel sesLabel acq.reload.label f.name
        (get_file_data f acq.reload).2.1 (get_file_data f acq.reload).2.2
        (stripTz f.created)))

/-- The pairs one session contributes to the full traversal. -/
def sessionNiftiPairs (subLabel : String) (ses : Session) : Table :=
  ses.reload.acquisitions.flatMap (acqNiftiPairs subLabel ses.reload.label)

/-- The pairs one subject contributes to the full traversal. -/
def subjectNiftiPairs (sub : Subject) : Table :=
  sub.sessions.flatMap (sessionNiftiPairs sub.label)

/-- All `(fileId, record)` pairs of the full traversal, in visit order. -/
def traversalPairs (p : Project) : Table :=
  p.subjects.flatMap subjectNiftiPairs

/-- The pairs one search result contributes to the incremental path, in
visit order: the fetched acquisition's files that pass the per-file
filter. -/
def resultPairs (fw : Client) (minDate : Date) (res : SearchResult) : Table :=
  ((fw.get_acquisition res.acquisition.id).files.filter
      (recentFileQualifies minDate)).map (fun f =>
    ((get_file_data f (fw.get_acquisition res.acquisition.id)).1,
      mkRecord res.subject.code res.session.label
        (fw.get_acquisition res.acquisition.id).label f.name
        (get_file_data f (fw.get_acquisition res.acquisition.id)).2.1
        (get_file_data f (fw.get_acquisition res.acquisition.id)).2.2
        (stripTz f.created)))

/-- All `(fileId, record)` pairs of the incremental path, in visit order. -/
def recentPairs (fw : Client) (project : Project) (minDate : Date) : Table :=
  (fw.search project.label minDate).flatMap (resultPairs fw minDate)

/-- The value the last assignment to key `k` in pair list `l` wrote, if
any: the semantics repeated dict assignment leaves behind. -/
def lastWrite {α : Type} : List (String × α) → String → Option α
  | [], _ => none
  | kv :: rest, k =>
    match lastWrite rest k with
    | some v => some v
    | none => if kv.1 = k then some kv.2 else none

/-! ### Dict lemmas -/

section DictLemmas

variable {α : Type}

theorem lookup_dictInsert (t : List (String × α)) (k k' : String) (v : α) :
    lookup (dictInsert t k v) k' = if k' = k then some v else lookup t k' := by
  induction t with
  | nil =>
    by_cases h : k' = k
    · subst h; simp [dictInsert, lookup]
    · simp [dictInsert, lookup, h, Ne.symm h]
  | cons kv rest ih =>
    by_cases h1 : kv.1 = k
    · by_cases h2 : k' = k
      · subst h2; simp [dictInsert, lookup, h1]
      · simp [dictInsert, lookup, h1, h2, Ne.symm h2]
    · by_cases h2 : kv.1 = k'
      · have h3 : ¬ k' = k := fun hh => h1 (h2.trans hh)
        simp [dictInsert, lookup, h1, h2, h3]
      · simp [dictInsert, lookup, h1, h2, ih]

theorem dictInsertList_nil (t : List (String × α)) : dictInsertList t [] = t := rfl

theorem dictInsertList_cons (t : List (String × α)) (kv : String × α)
    (l : List (String × α)) :
    dictInsertList t (kv :: l) = dictInsertList (dictInsert t kv.1 kv.2) l := rfl

theorem dictInsertList_append (t l1 l2 : List (String × α)) :
    dictInsertList t (l1 ++ l2) = dictInsertList (dictInsertList t l1) l2 := by
  simp [dictInsertList, List.foldl_append]

theorem lookup_dictInsertList (t l : List (String × α)) (k : String) :
    lookup (dictInsertList t l) k =
      match lastWrite l k with
      | some v => some v
      | none => lookup t k := by
  induction l generalizing t with
  | nil => simp [dictInsertList, lastWrite]
  | cons kv rest ih =>
    rw [dictInsertList_cons, ih]
    cases hlw : lastWrite rest k with
    | some v => simp [lastWrite, hlw]
    | none =>
      by_cases h : kv.1 = k
      · subst h; simp [lastWrite, hlw, lookup_dictInsert]
      · simp [lastWrite, hlw, h, lookup_dictInsert, Ne.symm h]

theorem lookup_dictInsertList_nil (l : List (String × α)) (k : String) :
    lookup (dictInsertList [] l) k = lastWrite l k := by
  rw [lookup_dictInsertList]
  cases lastWrite l k <;> simp [lookup]

theorem mem_dictInsert {t : List (String × α)} {k : String} {v : α}
    {x : String × α} (h : x ∈ dictInsert t k v) : x ∈ t ∨ x = (k, v) := by
  induction t with
  | nil => simpa [dictInsert] using h
  | cons kv rest ih =>
    by_cases h1 : kv.1 = k
    · simp only [dictInsert, h1, if_pos] at h
      rcases List.mem_cons.mp h with h2 | h2
      · exact Or.inr h2
      · exact Or.inl (List.mem_cons_of_mem _ h2)
    · simp only [dictInsert, h1, if_neg, not_false_iff] at h
      rcases List.mem_cons.mp h with h2 | h2
      · exact Or.inl (h2 ▸ List.mem_cons_self _ _)
      · rcases ih h2 with h3 | h3
        · exact Or.inl (List.mem_cons_of_mem _ h3)
        · exact Or.inr h3

theorem mem_dictInsertList {t l : List (String × α)} {x : String × α}
    (h : x ∈ dictInsertList t l) : x ∈ t ∨ x ∈ l := by
  induction l generalizing t with
  | nil => exact Or.inl h
  | cons kv rest ih =>
    rw [dictInsertList_cons] at h
    rcases ih h with h1 | h1
    · rcases mem_dictInsert h1 with h2 | h2
      · exact Or.inl h2
      · exact Or.inr (h2 ▸ List.mem_cons_self _ _)
    · exact Or.inr (List.mem_cons_of_mem _ h1)

theorem length_dictInsert (t : List (String × α)) (k : String) (v : α) :
    (dictInsert t k v).length ≤ t.length + 1 := by
  induction t with
  | nil => simp [dictInsert]
  | cons kv rest ih =>
    by_cases h : kv.1 = k
    · simp [dictInsert, h]
    · simp only [dictInsert, h, if_neg, not_false_iff, List.length_cons]
      omega

theorem length_dictInsertList (t l : List (String × α)) :
    (dictInsertList t l).length ≤ t.length + l.length := by
  induction l generalizing t with
  | nil => simp [dictInsertList]
  | cons kv rest ih =>
    rw [dictInsertList_cons]
    calc (dictInsertList (dictInsert t kv.1 kv.2) rest).length
        ≤ (dictInsert t kv.1 kv.2).length + rest.length := ih _
      _ ≤ t.length + 1 + rest.length := by
          have := length_dictInsert t kv.1 kv.2; omega
      _ = t.length + (kv :: rest).length := by simp; omega

theorem mem_keys_dictInsert {t : List (String × α)} {k k' : String} {v : α} :
    k' ∈ (dictInsert t k v).map Prod.fst ↔ k' ∈ t.map Prod.fst ∨ k' = k := by
  induction t with
  | nil => simp [dictInsert]
  | cons kv rest ih =>
    by_cases h : kv.1 = k
    · have he : dictInsert (kv :: rest) k v = (k, v) :: rest := by
        simp [dictInsert, h]
      rw [he]
      subst h
      simp only [List.map_cons, List.mem_cons]
      tauto
    · have he : dictInsert (kv :: rest) k v = kv :: dictInsert rest k v := by
        simp [dictInsert, h]
      rw [he]
      simp only [List.map_cons, List.mem_cons, ih]
      tauto

theorem nodupKeys_dictInsert {t : List (String × α)} {k : String} {v : α}
    (h : (t.map Prod.fst).Nodup) : ((dictInsert t k v).map Prod.fst).Nodup := by
  induction t with
  | nil => simp [dictInsert]
  | cons kv rest ih =>
    simp only [List.map_cons, List.nodup_cons] at h
    by_cases h1 : kv.1 = k
    · subst h1
      simpa [dictInsert, List.nodup_cons] using h
    · simp only [dictInsert, h1, if_neg, not_false_iff, List.map_cons,
        List.nodup_cons]
      refine ⟨fun hmem => ?_, ih h.2⟩
      rcases mem_keys_dictInsert.mp hmem with h2 | h2
      · exact h.1 h2
      · exact h1 h2

theorem nodupKeys_dictInsertList {t l : List (String × α)}
    (h : (t.map Prod.fst).Nodup) :
    ((dictInsertList t l).map Prod.fst).Nodup := by
  induction l generalizing t with
  | nil => exact h
  | cons kv rest ih =>
    rw [dictInsertList_cons]
    exact ih (nodupKeys_dictInsert h)

theorem lastWrite_eq_none_iff (l : List (String × α)) (k : String) :
    lastWrite l k = none ↔ k ∉ l.map Prod.fst := by
  induction l with
  | nil => simp [lastWrite]
  | cons kv rest ih =>
    cases hlw : lastWrite rest k with
    | some v =>
      simp only [lastWrite, hlw]
      have : k ∈ rest.map Prod.fst := by
        by_contra hk
        rw [← ih] at hk
        simp [hk] at hlw
      simp [this]
    | none =>
      have hk : k ∉ rest.map Prod.fst := ih.mp hlw
      by_cases h : kv.1 = k
      · subst h
        simp [lastWrite, hlw]
      · have h2 : ¬ k = kv.1 := fun hh => h hh.symm
        simp [lastWrite, hlw, h, h2, hk]

theorem lastWrite_of_nodup {l : List (String × α)} {k : String} {v : α}
    (h : (l.map Prod.fst).Nodup) (hm : (k, v) ∈ l) : lastWrite l k = some v := by
  induction l with
  | nil => cases hm
  | cons kv rest ih =>
    simp only [List.map_cons, List.nodup_cons] at h
    rcases List.mem_cons.mp hm with h1 | h1
    · have hk : kv.1 = k := by rw [← h1]
      have hnot : k ∉ rest.map Prod.fst := hk ▸ h.1
      have hnone : lastWrite rest k = none := (lastWrite_eq_none_iff _ _).mpr hnot
      simp [lastWrite, hnone, hk, ← h1]
    · have : lastWrite rest k = some v := ih h.2 h1
      simp [lastWrite, this]

theorem lastWrite_isSome_iff (l : List (String × α)) (k : String) :
    (lastWrite l k).isSome ↔ k ∈ l.map Prod.fst := by
  rcases hlw : lastWrite l k with _ | v
  · rw [lastWrite_eq_none_iff] at hlw
    simp [hlw]
  · have hne : lastWrite l k ≠ none := by simp [hlw]
    have h2 : ¬ k ∉ l.map Prod.fst :=
      fun hk => hne ((lastWrite_eq_none_iff _ _).mpr hk)
    simp [not_not.mp h2]

end DictLemmas

/-! ### The extractor folds as pair-list insertions -/

theorem foldl_insert_guard {α β : Type} (q : β → Bool) (key : β → String)
    (val : β → α) (xs : List β) (t : List (String × α)) :
    xs.foldl (fun acc x => if q x then dictInsert acc (key x) (val x) else acc) t
      = dictInsertList t ((xs.filter q).map (fun x => (key x, val x))) := by
  induction xs generalizing t with
  | nil => rfl
  | cons x rest ih =>
    cases h : q x
    · simp only [List.foldl_cons, h, Bool.false_eq_true, if_false,
        List.filter_cons, ih]
    · simp only [List.foldl_cons, h, if_true, List.filter_cons, List.map_cons,
        dictInsertList_cons, ih]

theorem foldl_eq_dictInsertList {α β : Type}
    (f : List (String × α) → β → List (String × α)) (g : β → List (String × α))
    (hf : ∀ t x, f t x = dictInsertList t (g x)) (xs : List β)
    (t : List (String × α)) :
    xs.foldl f t = dictInsertList t (xs.flatMap g) := by
  induction xs generalizing t with
  | nil => rfl
  | cons x rest ih =>
    rw [List.foldl_cons, hf, List.flatMap_cons, dictInsertList_append]
    exact ih _

theorem processAcquisition_eq (subLabel sesLabel : String) (t : Table)
    (acq : Acquisition) :
    processAcquisition subLabel sesLabel t acq
      = dictInsertList t (acqNiftiPairs subLabel sesLabel acq) :=
  foldl_insert_guard (fun f : FwFile => f.type == "nifti")
    (fun f => (get_file_data f acq.reload).1)
    (fun f => mkRecord subLabel sesLabel acq.reload.label f.name
      (get_file_data f acq.reload).2.1 (get_file_data f acq.reload).2.2
      (stripTz f.created))
    acq.reload.files t

theorem processSession_eq (subLabel : String) (t : Table) (ses : Session) :
    processSession subLabel t ses
      = dictInsertList t (sessionNiftiPairs subLabel ses) :=
  foldl_eq_dictInsertList _ _
    (fun t acq => processAcquisition_eq subLabel ses.reload.label t acq) _ t

theorem processSubject_eq (t : Table) (sub : Subject) :
    processSubject t sub = dictInsertList t (subjectNiftiPairs sub) :=
  foldl_eq_dictInsertList _ _
    (fun t ses => processSession_eq sub.label t ses) _ t

theorem get_all_metadata_eq (p : Project) :
    get_all_metadata_for p = dictInsertList [] (traversalPairs p) :=
  foldl_eq_dictInsertList _ _ (fun t sub => processSubject_eq t sub) _ []

theorem processResult_eq (fw : Client) (minDate : Date) (t : Table)
    (res : SearchResult) :
    processResult fw minDate t res = dictInsertList t (resultPairs fw minDate res) :=
  foldl_insert_guard (recentFileQualifies minDate)
    (fun f => (get_file_data f (fw.get_acquisition res.acquisition.id)).1)
    (fun f => mkRecord res.subject.code res.session.label
      (fw.get_acquisition res.acquisition.id).label f.name
      (get_file_data f (fw.get_acquisition res.acquisition.id)).2.1
      (get_file_data f (fw.get_acquisition res.acquisition.id)).2.2
      (stripTz f.created))
    (fw.get_acquisition res.acquisition.id).files t

theorem get_recent_metadata_ok {fw : Client} {project : Project} {minDate : Date}
    {t : Table} (h : get_recent_metadata_for fw project minDate = .ok t) :
    t = dictInsertList [] (recentPairs fw project minDate) := by
  by_cases he : (fw.search project.label minDate).isEmpty
  · simp [get_recent_metadata_for, he] at h
  · simp only [get_recent_metadata_for, he, Bool.false_eq_true, if_false,
      Except.ok.injEq] at h
    rw [← h]
    exact foldl_eq_dictInsertList _ _ (processResult_eq fw minDate) _ []

theorem acqNiftiPairs_keys (subLabel sesLabel : String) (acq : Acquisition) :
    (acqNiftiPairs subLabel sesLabel acq).map Prod.fst
      = (acqNiftiFiles acq).map FwFile.id := by
  simp only [acqNiftiPairs, List.map_map]
  rfl

theorem traversalPairs_keys (p : Project) :
    (traversalPairs p).map Prod.fst = (projectNiftiFiles p).map FwFile.id := by
  simp only [traversalPairs, projectNiftiFiles, List.map_flatMap]
  congr 1
  funext sub
  simp only [subjectNiftiPairs, List.map_flatMap]
  congr 1
  funext ses
  simp only [sessionNiftiPairs, List.map_flatMap]
  congr 1
  funext acq
  exact acqNiftiPairs_keys sub.label ses.reload.label acq

theorem traversalPairs_length (p : Project) :
    (traversalPairs p).length = (projectNiftiFiles p).length := by
  have h := congrArg List.length (traversalPairs_keys p)
  simpa using h

/-- Unpack membership in the full-traversal pair list into its source
file and hierarchy context. -/
theorem mem_traversalPairs {p : Project} {x : String × List Cell}
    (h : x ∈ traversalPairs p) :
    ∃ sub ∈ p.subjects, ∃ ses ∈ sub.sessions, ∃ acq ∈ ses.reload.acquisitions,
      ∃ f ∈ acq.reload.files, f.type == "nifti" ∧
        x = ((get_file_data f acq.reload).1,
          mkRecord sub.label ses.reload.label acq.reload.label f.name
            (get_file_data f acq.reload).2.1 (get_file_data f acq.reload).2.2
            (stripTz f.created)) := by
  simp only [traversalPairs, subjectNiftiPairs, sessionNiftiPairs, acqNiftiPairs,
    acqNiftiFiles, List.mem_flatMap, List.mem_map, List.mem_filter] at h
  obtain ⟨sub, hsub, ses, hses, acq, hacq, f, ⟨hf, hft⟩, hx⟩ := h
  exact ⟨sub, hsub, ses, hses, acq, hacq, f, hf, hft, hx.symm⟩

/-- Unpack membership in the incremental pair list into its source file
and search-result context. -/
theorem mem_recentPairs {fw : Client} {project : Project} {minDate : Date}
    {x : String × List Cell} (h : x ∈ recentPairs fw project minDate) :
    ∃ res ∈ fw.search project.label minDate,
      ∃ f ∈ (fw.get_acquisition res.acquisition.id).files,
        recentFileQualifies minDate f = true ∧
        x = ((get_file_data f (fw.get_acquisition res.acquisition.id)).1,
          mkRecord res.subject.code res.session.label
            (fw.get_acquisition res.acquisition.id).label f.name
            (get_file_data f (fw.get_acquisition res.acquisition.id)).2.1
            (get_file_data f (fw.get_acquisition res.acquisition.id)).2.2
            (stripTz f.created)) := by
  simp only [recentPairs, resultPairs, List.mem_flatMap, List.mem_map,
    List.mem_filter] at h
  obtain ⟨res, hres, f, ⟨hf, hq⟩, hx⟩ := h
  exact ⟨res, hres, f, hf, hq, hx.symm⟩

/-- `combineAcqTime` fails whenever the `AcquisitionTime` key is absent,
whatever the acquisition timestamp. -/
theorem combineAcqTime_of_no_time {f : FwFile} (acq : Acquisition)
    (h : lookupInfo f.info "AcquisitionTime" = none) :
    combineAcqTime f acq = none := by
  rcases hat : acq.timestamp with _ | adt <;> simp [combineAcqTime, hat, h]

/-! ### Concrete fixtures -/

/-- A sample minimum date for the incremental path. -/
def dEx : Date := ⟨2021, 6, 15⟩

/-- A nifti file created exactly at 00:00:00 UTC on `dEx`. -/
def fileBoundary : FwFile :=
  { id := "fw-file-1", name := "T1w.nii.gz", type := "nifti",
    created := ⟨⟨2021, 6, 15⟩, 0, 0, 0, some 0⟩,
    info := [("SeriesNumber", MetaValue.num 3),
             ("AcquisitionDateTime", MetaValue.str "2021-06-15T10:00:00")] }

/-- A nifti file created one second before 00:00:00 UTC on `dEx`. -/
def fileEarly : FwFile :=
  { id := "fw-file-2", name := "T2w.nii.gz", type := "nifti",
    created := ⟨⟨2021, 6, 14⟩, 23, 59, 59, some 0⟩,
    info := [] }

/-- An acquisition holding only `fileBoundary`. -/
def acqBoundary : Acquisition :=
  ⟨"acq-boundary", some ⟨⟨2021, 6, 15⟩, 9, 0, 0, none⟩, [fileBoundary]⟩

/-- An acquisition holding only `fileEarly`. -/
def acqEarly : Acquisition :=
  ⟨"acq-early", some ⟨⟨2021, 6, 14⟩, 9, 0, 0, none⟩, [fileEarly]⟩

/-- A search result pointing at `acqBoundary`. -/
def resBoundary : SearchResult := ⟨⟨"sub-01"⟩, ⟨"ses-01"⟩, ⟨"acq-boundary-id"⟩⟩

/-- A search result pointing at `acqEarly`. -/
def resEarly : SearchResult := ⟨⟨"sub-01"⟩, ⟨"ses-01"⟩, ⟨"acq-early-id"⟩⟩

/-- A client whose structured query returns `resBoundary`. -/
def fwBoundary : Client := ⟨[], fun _ => acqBoundary, fun _ _ => [resBoundary]⟩

/-- A client whose structured query returns `resEarly`. -/
def fwEarly : Client := ⟨[], fun _ => acqEarly, fun _ _ => [resEarly]⟩

/-- A nifti file carrying a `SeriesNumber` and an `AcquisitionTime`. -/
def fileNifti1 : FwFile :=
  { id := "fid-1", name := "T1w.nii.gz", type := "nifti",
    created := ⟨⟨2021, 1, 2⟩, 8, 30, 0, some 0⟩,
    info := [("SeriesNumber", MetaValue.num 3),
             ("AcquisitionTime", MetaValue.str "10:15:30")] }

/-- A non-nifti file, never tabulated. -/
def fileDicom : FwFile :=
  { id := "fid-2", name := "scan.dcm", type := "dicom",
    created := ⟨⟨2021, 1, 2⟩, 8, 29, 0, some 0⟩, info := [] }

/-- An acquisition with one nifti and one dicom file. -/
def acqT1 : Acquisition :=
  ⟨"T1w", some ⟨⟨2021, 1, 1⟩, 10, 0, 0, none⟩, [fileNifti1, fileDicom]⟩

/-- A session with one acquisition. -/
def sesEx : Session := ⟨"V1", [acqT1]⟩

/-- A subject with one session. -/
def subEx : Subject := ⟨"S1", [sesEx]⟩

/-- A project with one subject. -/
def projEx : Project := ⟨"TestProject", [subEx]⟩

/-- A client that can resolve `projEx`. -/
def clientEx : Client := ⟨[projEx], fun _ => acqT1, fun _ _ => []⟩

/-- An acquisition with a timestamp, used to exercise `get_file_data`. -/
def acqW : Acquisition := ⟨"acq-w", some ⟨⟨2021, 3, 4⟩, 11, 22, 33, none⟩, []⟩

/-- A file whose metadata holds all three date and time keys. -/
def fileAllKeys : FwFile :=
  { id := "w1", name := "a.nii.gz", type := "nifti",
    created := ⟨⟨2021, 3, 4⟩, 12, 0, 0, some 0⟩,
    info := [("AcquisitionDateTime", MetaValue.str "2021-03-04T10:00:00"),
             ("AcquisitionTime", MetaValue.str "10:00:00"),
             ("AcquisitionDate", MetaValue.str "2021-03-04")] }

/-- A file whose metadata holds only `AcquisitionTime`. -/
def fileTimeOnly : FwFile :=
  { id := "w2", name := "b.nii.gz", type := "nifti",
    created := ⟨⟨2021, 3, 4⟩, 12, 0, 0, some 0⟩,
    info := [("AcquisitionTime", MetaValue.str "10:15:30")] }

/-- A file whose metadata holds only `AcquisitionDate`. -/
def fileDateOnly : FwFile :=
  { id := "w3", name := "c.nii.gz", type := "nifti",
    created := ⟨⟨2021, 3, 4⟩, 12, 0, 0, some 0⟩,
    info := [("AcquisitionDate", MetaValue.str "2021-03-04")] }

/-- A file with no date or time metadata at all. -/
def fileNoKeys : FwFile :=
  { id := "w4", name := "d.nii.gz", type := "nifti",
    created := ⟨⟨2021, 3, 4⟩, 12, 0, 0, some 0⟩,
    info := [] }

/-! ### Claim theorems -/

/-- C1: the Field Extractor timestamp fallback order.  A present
`AcquisitionDateTime` metadata value is returned as-is, even when the
separate date and time-of-day pair is also present (no hypothesis below
restricts the other keys of `f1`); with it absent, a present and parseable
`AcquisitionTime` yields the combination of the parent acquisition's
timestamp date with that time of day; with both absent, a present
`AcquisitionDate` is returned as-is; with all three absent the timestamp
is `none`. -/
theorem timestamp_fallback_order
    (f1 f2 f3 f4 : FwFile) (acq : Acquisition) (adt : DateTime)
    (v w : MetaValue) (s : String) (t : TimeOfDay)
    (h1 : lookupInfo f1.info "AcquisitionDateTime" = some v)
    (h2a : lookupInfo f2.info "AcquisitionDateTime" = none)
    (h2b : acq.timestamp = some adt)
    (h2c : lookupInfo f2.info "AcquisitionTime" = some (MetaValue.str s))
    (h2d : timeFromIso s = some t)
    (h3a : lookupInfo f3.info "AcquisitionDateTime" = none)
    (h3b : lookupInfo f3.info "AcquisitionTime" = none)
    (h3c : lookupInfo f3.info "AcquisitionDate" = some w)
    (h4a : lookupInfo f4.info "AcquisitionDateTime" = none)
    (h4b : lookupInfo f4.info "AcquisitionTime" = none)
    (h4c : lookupInfo f4.info "AcquisitionDate" = none) :
    (get_file_data f1 acq).2.2 = some (TsValue.raw v)
    ∧ (get_file_data f2 acq).2.2 = some (TsValue.combined adt.date t)
    ∧ (get_file_data f3 acq).2.2 = some (TsValue.raw w)
    ∧ (get_file_data f4 acq).2.2 = none := by
  refine ⟨?_, ?_, ?_, ?_⟩
  · simp [get_file_data, timestampOf, h1]
  · simp [get_file_data, timestampOf, h2a, combineAcqTime, h2b, h2c, h2d]
  · have hc := combineAcqTime_of_no_time (f := f3) acq h3b
    simp [get_file_data, timestampOf, h3a, hc, h3c]
  · have hc := combineAcqTime_of_no_time (f := f4) acq h4b
    simp [get_file_data, timestampOf, h4a, hc, h4c]

/-- Witness for C1 at the four fixture files: the hypotheses hold at
these concrete inputs, and the conclusions follow by the theorem. -/
theorem timestamp_fallback_order_witness :
    lookupInfo fileAllKeys.info "AcquisitionDateTime"
        = some (MetaValue.str "2021-03-04T10:00:00")
    ∧ lookupInfo fileTimeOnly.info "AcquisitionDateTime" = none
    ∧ acqW.timestamp = some ⟨⟨2021, 3, 4⟩, 11, 22, 33, none⟩
    ∧ lookupInfo fileTimeOnly.info "AcquisitionTime"
        = some (MetaValue.str "10:15:30")
    ∧ timeFromIso "10:15:30" = some ⟨10, 15, 30⟩
    ∧ lookupInfo fileDateOnly.info "AcquisitionDateTime" = none
    ∧ lookupInfo fileDateOnly.info "AcquisitionTime" = none
    ∧ lookupInfo fileDateOnly.info "AcquisitionDate"
        = some (MetaValue.str "2021-03-04")
    ∧ lookupInfo fileNoKeys.info "AcquisitionDateTime" = none
    ∧ lookupInfo fileNoKeys.info "AcquisitionTime" = none
    ∧ lookupInfo fileNoKeys.info "AcquisitionDate" = none
    ∧ ((get_file_data fileAllKeys acqW).2.2
        = some (TsValue.raw (MetaValue.str "2021-03-04T10:00:00"))
      ∧ (get_file_data fileTimeOnly acqW).2.2
        = some (TsValue.combined ⟨2021, 3, 4⟩ ⟨10, 15, 30⟩)
      ∧ (get_file_data fileDateOnly acqW).2.2
        = some (TsValue.raw (MetaValue.str "2021-03-04"))
      ∧ (get_file_data fileNoKeys acqW).2.2 = none) :=
  ⟨by decide, by decide, by decide, by decide, by decide, by decide, by decide,
   by decide, by decide, by decide, by decide,
   timestamp_fallback_order fileAllKeys fileTimeOnly fileDateOnly fileNoKeys acqW
     ⟨⟨2021, 3, 4⟩, 11, 22, 33, none⟩ (MetaValue.str "2021-03-04T10:00:00")
     (MetaValue.str "2021-03-04") "10:15:30" ⟨10, 15, 30⟩
     (by decide) (by decide) (by decide) (by decide) (by decide) (by decide)
     (by decide) (by decide) (by decide) (by decide) (by decide)⟩

/-- C6: the Project Resolver fails with `AuthenticationError` when no
client could be constructed, fails with `NotFoundError` when no project
matches the label, and returns the project handle exactly when a match
exists. -/
theorem get_project_resolution (fw : Client) (labelA labelB : String)
    (p : Project)
    (hA : find_first fw.projects labelA = none)
    (hB : find_first fw.projects labelB = some p) :
    (∃ m, get_project none labelA = .error (.authenticationError m))
    ∧ (∃ m, get_project (some fw) labelA = .error (.notFoundError m))
    ∧ get_project (some fw) labelB = .ok p
    ∧ ∀ l : String, ∀ q : Project,
        (get_project (some fw) l = .ok q ↔ find_first fw.projects l = some q) := by
  refine ⟨⟨"Your Flywheel CLI credentials are not set!", rfl⟩,
    ⟨"Project " ++ labelA ++ " not found!", by simp [get_project, hA]⟩,
    by simp [get_project, hB], ?_⟩
  intro l q
  rcases hf : find_first fw.projects l with _ | r <;> simp [get_project, hf]

/-- Witness for C6 at the fixture client: `clientEx` resolves the label
of `projEx` and no other. -/
theorem get_project_resolution_witness :
    find_first clientEx.projects "NoSuchProject" = none
    ∧ find_first clientEx.projects "TestProject" = some projEx
    ∧ ((∃ m, get_project none "NoSuchProject" = .error (.authenticationError m))
      ∧ (∃ m, get_project (some clientEx) "NoSuchProject"
          = .error (.notFoundError m))
      ∧ get_project (some clientEx) "TestProject" = .ok projEx
      ∧ ∀ l : String, ∀ q : Project,
          (get_project (some clientEx) l = .ok q
            ↔ find_first clientEx.projects l = some q)) :=
  ⟨by decide, by decide,
   get_project_resolution clientEx "NoSuchProject" "TestProject" projEx
     (by decide) (by decide)⟩

/-- C8: the Full Traversal Extractor is a deterministic function of the
remote project state: two runs against the same unchanged project yield
the same key set and the same record under every key. -/
theorem full_traversal_deterministic (p q : Project) (h : p = q) :
    (get_all_metadata_for p).map Prod.fst = (get_all_metadata_for q).map Prod.fst
    ∧ ∀ k, lookup (get_all_metadata_for p) k = lookup (get_all_metadata_for q) k := by
  subst h
  exact ⟨rfl, fun _ => rfl⟩

/-- Witness for C8 at the fixture project. -/
theorem full_traversal_deterministic_witness :
    projEx = projEx
    ∧ ((get_all_metadata_for projEx).map Prod.fst
        = (get_all_metadata_for projEx).map Prod.fst
      ∧ ∀ k, lookup (get_all_metadata_for projEx) k
          = lookup (get_all_metadata_for projEx) k) :=
  ⟨rfl, full_traversal_deterministic projEx projEx rfl⟩

/-- Every entry of the full-traversal table is the record of some nifti
file reachable under the project. -/
theorem mem_get_all {p : Project} {x : String × List Cell}
    (hx : x ∈ get_all_metadata_for p) :
    ∃ f ∈ projectNiftiFiles p, ∃ subL sesL acqL sn ts,
      x = (f.id, mkRecord subL sesL acqL f.name sn ts (stripTz f.created)) := by
  rw [get_all_metadata_eq] at hx
  rcases mem_dictInsertList hx with h1 | h1
  · cases h1
  · obtain ⟨sub, hsub, ses, hses, acq, hacq, f, hf, hft, hxe⟩ :=
      mem_traversalPairs h1
    refine ⟨f, ?_, sub.label, ses.reload.label, acq.reload.label,
      (get_file_data f acq.reload).2.1, (get_file_data f acq.reload).2.2, hxe⟩
    simp only [projectNiftiFiles, List.mem_flatMap, acqNiftiFiles,
      List.mem_filter]
    exact ⟨sub, hsub, ses, hses, acq, hacq, hf, hft⟩

/-- Every entry of the incremental table is the record of some file of a
returned acquisition that passes the per-file filter. -/
theorem mem_recent_table {fw : Client} {project : Project} {minDate : Date}
    {t : Table} (h : get_recent_metadata_for fw project minDate = .ok t)
    {x : String × List Cell} (hx : x ∈ t) :
    ∃ res ∈ fw.search project.label minDate,
      ∃ f ∈ (fw.get_acquisition res.acquisition.id).files,
        recentFileQualifies minDate f = true ∧
        x = (f.id, mkRecord res.subject.code res.session.label
          (fw.get_acquisition res.acquisition.id).label f.name
          (seriesNumOf f) (timestampOf f (fw.get_acquisition res.acquisition.id))
          (stripTz f.created)) := by
  rw [get_recent_metadata_ok h] at hx
  rcases mem_dictInsertList hx with h1 | h1
  · cases h1
  · obtain ⟨res, hres, f, hf, hq, hxe⟩ := mem_recentPairs h1
    exact ⟨res, hres, f, hf, hq, hxe⟩

/-- C2: the full-traversal Result Table is keyed exactly by the ids of
the nifti files reachable under the project: its key list has no
duplicates, every traversed nifti file's pair is retrievable under its
id, and a key resolves exactly when it is the id of a reachable nifti
file (so files of other types contribute nothing). -/
theorem full_traversal_complete (p : Project)
    (h : ((projectNiftiFiles p).map FwFile.id).Nodup) :
    ((get_all_metadata_for p).map Prod.fst).Nodup
    ∧ (∀ pr ∈ traversalPairs p,
        lookup (get_all_metadata_for p) pr.1 = some pr.2)
    ∧ (∀ k, (lookup (get_all_metadata_for p) k).isSome
        ↔ k ∈ (projectNiftiFiles p).map FwFile.id) := by
  have hkeys : ((traversalPairs p).map Prod.fst).Nodup := by
    rw [traversalPairs_keys]; exact h
  refine ⟨?_, ?_, ?_⟩
  · rw [get_all_metadata_eq]
    exact nodupKeys_dictInsertList (by simp)
  · intro pr hpr
    rw [get_all_metadata_eq, lookup_dictInsertList_nil]
    exact lastWrite_of_nodup hkeys (by rwa [Prod.mk.eta])
  · intro k
    rw [get_all_metadata_eq, lookup_dictInsertList_nil, lastWrite_isSome_iff,
      traversalPairs_keys]

/-- Witness for C2 at the fixture project: distinct file ids, one nifti
file, one dicom file. -/
theorem full_traversal_complete_witness :
    ((projectNiftiFiles projEx).map FwFile.id).Nodup
    ∧ (((get_all_metadata_for projEx).map Prod.fst).Nodup
      ∧ (∀ pr ∈ traversalPairs projEx,
          lookup (get_all_metadata_for projEx) pr.1 = some pr.2)
      ∧ (∀ k, (lookup (get_all_metadata_for projEx) k).isSome
          ↔ k ∈ (projectNiftiFiles projEx).map FwFile.id)) :=
  ⟨by decide, full_traversal_complete projEx (by decide)⟩

/-- C10: result-table insertion is last-write-wins on the file id, in
both extraction paths: any key resolves to the value of the last visited
pair bearing it, and the table never has more entries than the qualifying
files processed (the full-traversal pair list has exactly one pair per
reachable nifti file). -/
theorem table_last_write_wins (p : Project) (fw : Client) (minDate : Date) :
    (∀ k, lookup (get_all_metadata_for p) k = lastWrite (traversalPairs p) k)
    ∧ (get_all_metadata_for p).length ≤ (traversalPairs p).length
    ∧ (traversalPairs p).length = (projectNiftiFiles p).length
    ∧ ∀ t, get_recent_metadata_for fw p minDate = .ok t →
        (∀ k, lookup t k = lastWrite (recentPairs fw p minDate) k)
        ∧ t.length ≤ (recentPairs fw p minDate).length := by
  refine ⟨?_, ?_, traversalPairs_length p, ?_⟩
  · intro k
    rw [get_all_metadata_eq, lookup_dictInsertList_nil]
  · rw [get_all_metadata_eq]
    simpa using length_dictInsertList [] (traversalPairs p)
  · intro t ht
    rw [get_recent_metadata_ok ht]
    refine ⟨fun k => lookup_dictInsertList_nil _ k, ?_⟩
    simpa using length_dictInsertList [] (recentPairs fw p minDate)

/-- Witness for C10 at the fixture project and client (no hypotheses to
discharge beyond concrete instantiation). -/
theorem table_last_write_wins_witness :
    (∀ k, lookup (get_all_metadata_for projEx) k
        = lastWrite (traversalPairs projEx) k)
    ∧ (get_all_metadata_for projEx).length ≤ (traversalPairs projEx).length
    ∧ (traversalPairs projEx).length = (projectNiftiFiles projEx).length
    ∧ ∀ t, get_recent_metadata_for fwBoundary projEx dEx = .ok t →
        (∀ k, lookup t k = lastWrite (recentPairs fwBoundary projEx dEx) k)
        ∧ t.length ≤ (recentPairs fwBoundary projEx dEx).length :=
  table_last_write_wins projEx fwBoundary dEx

/-- C3: with minimum date `d`, a nifti file of a returned acquisition
created exactly at 00:00:00 UTC on `d` gets a Result Table entry, and one
created one second earlier gets none. -/
theorem boundary_inclusion_exclusion (d : Date) (p : Project)
    (fw1 fw2 : Client) (res1 res2 : SearchResult) (A B : Acquisition)
    (f g : FwFile)
    (hfty : f.type = "nifti") (hgty : g.type = "nifti")
    (hf : instant f.created = instant (dateBoundary d))
    (hg : instant g.created = instant (dateBoundary d) - 1)
    (hs1 : fw1.search p.label d = [res1])
    (ha1 : fw1.get_acquisition res1.acquisition.id = A)
    (hfl1 : A.files = [f])
    (hs2 : fw2.search p.label d = [res2])
    (ha2 : fw2.get_acquisition res2.acquisition.id = B)
    (hfl2 : B.files = [g]) :
    (∃ t, get_recent_metadata_for fw1 p d = .ok t ∧ (lookup t f.id).isSome)
    ∧ (∃ t, get_recent_metadata_for fw2 p d = .ok t ∧ lookup t g.id = none) := by
  have hq1 : recentFileQualifies d f = true := by
    simp [recentFileQualifies, hfty, hf]
  have hq2 : recentFileQualifies d g = false := by
    simp only [recentFileQualifies, hgty, hg]
    simp only [Bool.and_eq_false_imp, beq_self_eq_true, decide_eq_false_iff_not,
      forall_const]
    omega
  constructor
  · refine ⟨processResult fw1 d [] res1, ?_, ?_⟩
    · simp [get_recent_metadata_for, hs1]
    · rw [processResult_eq, lookup_dictInsertList_nil]
      have hrp : resultPairs fw1 d res1
          = [(f.id, mkRecord res1.subject.code res1.session.label A.label f.name
              (seriesNumOf f) (timestampOf f A) (stripTz f.created))] := by
        simp [resultPairs, ha1, hfl1, hq1, get_file_data]
      rw [hrp]
      simp [lastWrite]
  · refine ⟨processResult fw2 d [] res2, ?_, ?_⟩
    · simp [get_recent_metadata_for, hs2]
    · rw [processResult_eq, lookup_dictInsertList_nil]
      have hrp : resultPairs fw2 d res2 = [] := by
        simp [resultPairs, ha2, hfl2, hq2]
      rw [hrp]
      rfl

/-- Witness for C3 at the boundary fixtures: 2021-06-15 00:00:00 UTC is
included, 2021-06-14 23:59:59 UTC is excluded. -/
theorem boundary_inclusion_exclusion_witness :
    fileBoundary.type = "nifti" ∧ fileEarly.type = "nifti"
    ∧ instant fileBoundary.created = instant (dateBoundary dEx)
    ∧ instant fileEarly.created = instant (dateBoundary dEx) - 1
    ∧ fwBoundary.search projEx.label dEx = [resBoundary]
    ∧ fwBoundary.get_acquisition resBoundary.acquisition.id = acqBoundary
    ∧ acqBoundary.files = [fileBoundary]
    ∧ fwEarly.search projEx.label dEx = [resEarly]
    ∧ fwEarly.get_acquisition resEarly.acquisition.id = acqEarly
    ∧ acqEarly.files = [fileEarly]
    ∧ ((∃ t, get_recent_metadata_for fwBoundary projEx dEx = .ok t
          ∧ (lookup t fileBoundary.id).isSome)
      ∧ (∃ t, get_recent_metadata_for fwEarly projEx dEx = .ok t
          ∧ lookup t fileEarly.id = none)) :=
  ⟨rfl, rfl, by decide, by decide, rfl, rfl, rfl, rfl, rfl, rfl,
   boundary_inclusion_exclusion dEx projEx fwBoundary fwEarly resBoundary
     resEarly acqBoundary acqEarly fileBoundary fileEarly rfl rfl (by decide)
     (by decide) rfl rfl rfl rfl rfl rfl⟩

/-- C4: every entry of the incremental Result Table comes from a file of
a returned acquisition that has type nifti and creation on or after the
timezone-aware minimum-date boundary; non-qualifying files of the same
acquisitions contribute nothing. -/
theorem recent_records_only_qualifying (fw : Client) (project : Project)
    (minDate : Date) (t : Table)
    (h : get_recent_metadata_for fw project minDate = .ok t) :
    ∀ x ∈ t, ∃ res ∈ fw.search project.label minDate,
      ∃ f ∈ (fw.get_acquisition res.acquisition.id).files,
        f.type = "nifti"
        ∧ instant (dateBoundary minDate) ≤ instant f.created
        ∧ x = (f.id, mkRecord res.subject.code res.session.label
            (fw.get_acquisition res.acquisition.id).label f.name
            (seriesNumOf f) (timestampOf f (fw.get_acquisition res.acquisition.id))
            (stripTz f.created)) := by
  intro x hx
  obtain ⟨res, hres, f, hf, hq, hxe⟩ := mem_recent_table h hx
  have hq2 : f.type = "nifti" ∧ instant (dateBoundary minDate) ≤ instant f.created := by
    simpa [recentFileQualifies] using hq
  exact ⟨res, hres, f, hf, hq2.1, hq2.2, hxe⟩

/-- The incremental table produced by the boundary fixture client. -/
def tEx : Table :=
  [("fw-file-1", mkRecord "sub-01" "ses-01" "acq-boundary" "T1w.nii.gz"
      (some (MetaValue.num 3))
      (some (TsValue.raw (MetaValue.str "2021-06-15T10:00:00")))
      ⟨⟨2021, 6, 15⟩, 0, 0, 0, none⟩)]

/-- Witness for C4 at the boundary fixture client. -/
theorem recent_records_only_qualifying_witness :
    get_recent_metadata_for fwBoundary projEx dEx = .ok tEx
    ∧ ∀ x ∈ tEx, ∃ res ∈ fwBoundary.search projEx.label dEx,
      ∃ f ∈ (fwBoundary.get_acquisition res.acquisition.id).files,
        f.type = "nifti"
        ∧ instant (dateBoundary dEx) ≤ instant f.created
        ∧ x = (f.id, mkRecord res.subject.code res.session.label
            (fwBoundary.get_acquisition res.acquisition.id).label f.name
            (seriesNumOf f)
            (timestampOf f (fwBoundary.get_acquisition res.acquisition.id))
            (stripTz f.created)) :=
  ⟨rfl, recent_records_only_qualifying fwBoundary projEx dEx tEx rfl⟩

/-- C5: both paths store the creation timestamp with its timezone
stripped (the stored seventh cell is `stripTz` of the remote creation
value, whose `tz` is `none`), while the incremental per-file filter
compares against the timezone-aware boundary instant (`dateBoundary` has
offset 0, i.e. UTC). -/
theorem stored_created_stripped (p : Project) (fw : Client) (minDate : Date) :
    (∀ x ∈ get_all_metadata_for p, ∃ f ∈ projectNiftiFiles p,
        x.1 = f.id ∧ x.2[6]? = some (Cell.dt (stripTz f.created))
        ∧ (stripTz f.created).tz = none)
    ∧ (∀ t, get_recent_metadata_for fw p minDate = Except.ok t → ∀ x ∈ t,
        ∃ res ∈ fw.search p.label minDate,
          ∃ f ∈ (fw.get_acquisition res.acquisition.id).files,
            recentFileQualifies minDate f = true ∧ x.1 = f.id
            ∧ x.2[6]? = some (Cell.dt (stripTz f.created))
            ∧ (stripTz f.created).tz = none)
    ∧ (∀ f2 : FwFile, ∀ d : Date, recentFileQualifies d f2
        = (f2.type == "nifti"
            && decide (instant (dateBoundary d) ≤ instant f2.created)))
    ∧ (∀ d : Date, (dateBoundary d).tz = some 0) := by
  refine ⟨?_, ?_, fun f2 d => rfl, fun d => rfl⟩
  · intro x hx
    obtain ⟨f, hfmem, subL, sesL, acqL, sn, ts, hxe⟩ := mem_get_all hx
    subst hxe
    exact ⟨f, hfmem, rfl, rfl, rfl⟩
  · intro t ht x hx
    obtain ⟨res, hres, f, hf, hq, hxe⟩ := mem_recent_table ht hx
    subst hxe
    exact ⟨res, hres, f, hf, hq, rfl, rfl, rfl⟩

/-- Witness for C5 at the fixture project and boundary client. -/
theorem stored_created_stripped_witness :
    (∀ x ∈ get_all_metadata_for projEx, ∃ f ∈ projectNiftiFiles projEx,
        x.1 = f.id ∧ x.2[6]? = some (Cell.dt (stripTz f.created))
        ∧ (stripTz f.created).tz = none)
    ∧ (∀ t, get_recent_metadata_for fwBoundary projEx dEx = Except.ok t →
        ∀ x ∈ t, ∃ res ∈ fwBoundary.search projEx.label dEx,
          ∃ f ∈ (fwBoundary.get_acquisition res.acquisition.id).files,
            recentFileQualifies dEx f = true ∧ x.1 = f.id
            ∧ x.2[6]? = some (Cell.dt (stripTz f.created))
            ∧ (stripTz f.created).tz = none)
    ∧ (∀ f2 : FwFile, ∀ d : Date, recentFileQualifies d f2
        = (f2.type == "nifti"
            && decide (instant (dateBoundary d) ≤ instant f2.created)))
    ∧ (∀ d : Date, (dateBoundary d).tz = some 0) :=
  stored_created_stripped projEx fwBoundary dEx

/-- C7: every stored record has exactly 7 cells and its subject label,
session label, acquisition label and file name cells (the first four) are
present string values, in both extraction paths; the identifier is the
(always present) string key itself. -/
theorem mandatory_fields_present (p : Project) (fw : Client) (minDate : Date) :
    (∀ x ∈ get_all_metadata_for p, x.2.length = 7
        ∧ (∃ s1, x.2[0]? = some (Cell.str s1))
        ∧ (∃ s2, x.2[1]? = some (Cell.str s2))
        ∧ (∃ s3, x.2[2]? = some (Cell.str s3))
        ∧ (∃ s4, x.2[3]? = some (Cell.str s4)))
    ∧ (∀ t, get_recent_metadata_for fw p minDate = Except.ok t → ∀ x ∈ t,
        x.2.length = 7
        ∧ (∃ s1, x.2[0]? = some (Cell.str s1))
        ∧ (∃ s2, x.2[1]? = some (Cell.str s2))
        ∧ (∃ s3, x.2[2]? = some (Cell.str s3))
        ∧ (∃ s4, x.2[3]? = some (Cell.str s4))) := by
  constructor
  · intro x hx
    obtain ⟨f, hfmem, subL, sesL, acqL, sn, ts, hxe⟩ := mem_get_all hx
    subst hxe
    exact ⟨rfl, ⟨subL, rfl⟩, ⟨sesL, rfl⟩, ⟨acqL, rfl⟩, ⟨f.name, rfl⟩⟩
  · intro t ht x hx
    obtain ⟨res, hres, f, hf, hq, hxe⟩ := mem_recent_table ht hx
    subst hxe
    exact ⟨rfl, ⟨res.subject.code, rfl⟩, ⟨res.session.label, rfl⟩,
      ⟨(fw.get_acquisition res.acquisition.id).label, rfl⟩, ⟨f.name, rfl⟩⟩

/-- Witness for C7 at the fixture project and boundary client. -/
theorem mandatory_fields_present_witness :
    (∀ x ∈ get_all_metadata_for projEx, x.2.length = 7
        ∧ (∃ s1, x.2[0]? = some (Cell.str s1))
        ∧ (∃ s2, x.2[1]? = some (Cell.str s2))
        ∧ (∃ s3, x.2[2]? = some (Cell.str s3))
        ∧ (∃ s4, x.2[3]? = some (Cell.str s4)))
    ∧ (∀ t, get_recent_metadata_for fwBoundary projEx dEx = Except.ok t →
        ∀ x ∈ t, x.2.length = 7
        ∧ (∃ s1, x.2[0]? = some (Cell.str s1))
        ∧ (∃ s2, x.2[1]? = some (Cell.str s2))
        ∧ (∃ s3, x.2[2]? = some (Cell.str s3))
        ∧ (∃ s4, x.2[3]? = some (Cell.str s4))) :=
  mandatory_fields_present projEx fwBoundary dEx

/-- C9: the exported flat table has the fixed column order identifier,
subject, session, acquisition label, file name, sequence number,
timestamp, creation timestamp, with one row per Record of the Result
Table; each row is the key followed by the record's seven cells in that
order. -/
theorem export_table_shape (p : Project) :
    headerColumns = ["FlywheelFileId", "SubjectId", "SessionId", "AcqLabel",
      "Filename", "SeriesNumber", "Timestamp", "Created"]
    ∧ (toCsvRows (get_all_metadata_for p)).length
        = (get_all_metadata_for p).length
    ∧ ∀ row ∈ toCsvRows (get_all_metadata_for p),
        ∃ f ∈ projectNiftiFiles p, ∃ subL sesL acqL sn ts,
          row = [Cell.str f.id, Cell.str subL, Cell.str sesL, Cell.str acqL,
            Cell.str f.name, metaCell sn, tsCell ts,
            Cell.dt (stripTz f.created)] := by
  refine ⟨rfl, by simp [toCsvRows], ?_⟩
  intro row hrow
  simp only [toCsvRows, List.mem_map] at hrow
  obtain ⟨x, hx, hre⟩ := hrow
  obtain ⟨f, hfmem, subL, sesL, acqL, sn, ts, hxe⟩ := mem_get_all hx
  subst hxe
  exact ⟨f, hfmem, subL, sesL, acqL, sn, ts, hre.symm⟩

/-- Witness for C9 at the fixture project. -/
theorem export_table_shape_witness :
    headerColumns = ["FlywheelFileId", "SubjectId", "SessionId", "AcqLabel",
      "Filename", "SeriesNumber", "Timestamp", "Created"]
    ∧ (toCsvRows (get_all_metadata_for projEx)).length
        = (get_all_metadata_for projEx).length
    ∧ ∀ row ∈ toCsvRows (get_all_metadata_for projEx),
        ∃ f ∈ projectNiftiFiles projEx, ∃ subL sesL acqL sn ts,
          row = [Cell.str f.id, Cell.str subL, Cell.str sesL, Cell.str acqL,
            Cell.str f.name, metaCell sn, tsCell ts,
            Cell.dt (stripTz f.created)] :=
  export_table_shape projEx

end FwTabulate
